import Mathlib

/-!
Verification of `balance/receiver.go`.

A shallow embedding of the Kafka receiver of dd-zipkin-proxy
(`src/balance/receiver.go`): the record decoder `decodeKafkaMessage`, the
consumer-group handler (`Setup`, `Cleanup`, `ConsumeClaim`) and the supervisor
loop started by `Consume`.

Conventions.

* The Avro decoder `avro.DeserializeSpan` and the interning function
  `cache.String` are external to the file; every definition takes them as
  parameters `deserialize` and `intern`.  The interning table is an explicit
  state of an arbitrary type `σ` that `intern` reads and updates.
* The record types `avro.Span` and `proxy.Span` are declared outside the file.
  Their integer fields (identifiers, timestamps, duration) are 64 bits wide;
  a field is an `Int` that stands for its 64-bit pattern, and a Go conversion
  `T(x)` between integer types of the same width, which keeps the pattern, is
  the identity.
* A Go `map[string]string` is a list of entries.  For the map that is ranged
  over, the list is the sequence of entries in the order the `range` yields
  them; for the map that is written, assignment `m[k] = v` is `mapSet`.
* Calls that only have an effect on the outside (the callback, the session's
  `MarkMessage`, the logger) are recorded in a trace of `Effect`s.
-/

namespace Balance

/-! ## Data model -/

/-- A byte buffer (`[]byte`). -/
abbrev Bytes := List Nat

/-- Go `error` values: an error produced by a callee outside this file, or
the result of `errors.WithMessage(cause, msg)` of github.com/pkg/errors. -/
inductive GoError where
  | base (text : String)
  | withMessage (cause : GoError) (msg : String)
deriving DecidableEq, Repr

/-- The `Error()` string: `errors.WithMessage` prints `msg: cause`. -/
def GoError.Error : GoError → String
  | .base text => text
  | .withMessage cause msg => msg ++ ": " ++ cause.Error

/-- The cause attached by `errors.WithMessage` (the wrapped error); an error
that wraps nothing has no attached cause. -/
def GoError.Unwrap : GoError → Option GoError
  | .base _ => none
  | .withMessage cause _ => some cause

/-- The fields of `sarama.ConsumerMessage`. -/
structure ConsumerMessage where
  Headers : List (Bytes × Bytes)
  Timestamp : Int
  BlockTimestamp : Int
  Key : Bytes
  Value : Bytes
  Topic : String
  Partition : Int
  Offset : Int
deriving DecidableEq, Repr

/-- Modelled from the spec: the declaration of the wire record `avro.Span` is
not in `receiver.go`.  The fields are those `decodeKafkaMessage` reads, typed
as the WireRecord of the spec: three opaque fixed-size identifiers, a name, a
service name, a start timestamp and a duration in nanoseconds, four event
timestamps, and a mapping from tag key to tag value.  `Tags` is the sequence
of entries that `range span.Tags` yields; for a Go map its keys are pairwise
distinct. -/
structure AvroSpan where
  Id : Int
  Parent : Int
  Trace : Int
  Name : String
  Service : String
  TimestampInNanos : Int
  DurationInNanos : Int
  CrInNanos : Int
  CsInNanos : Int
  SrInNanos : Int
  SsInNanos : Int
  Tags : List (String × String)
deriving DecidableEq, Repr

/-- Modelled from the spec: the declaration of `proxy.Timings` is not in
`receiver.go`.  The fields are the four event timestamps the decoder sets. -/
structure Timings where
  CS : Int
  CR : Int
  SS : Int
  SR : Int
deriving DecidableEq, Repr

/-- Modelled from the spec: the declaration of `proxy.Span` is not in
`receiver.go`.  The fields are those the decoder sets, typed as the Event of
the spec.  `Tags` is `none` for the nil map and `some entries` for an
allocated map. -/
structure Span where
  Id : Int
  Parent : Int
  Trace : Int
  Name : String
  Service : String
  Tags : Option (List (String × String))
  Timestamp : Int
  Duration : Int
  Timings : Timings
deriving DecidableEq, Repr

/-- The zero value `proxy.Span{}`. -/
def Span.zero : Span :=
  { Id := 0, Parent := 0, Trace := 0, Name := "", Service := "", Tags := none,
    Timestamp := 0, Duration := 0, Timings := { CS := 0, CR := 0, SS := 0, SR := 0 } }

/-! ## Go maps -/

/-- Map assignment `m[k] = v`: overwrite the entry of `k` when there is one,
add an entry otherwise. -/
def mapSet : List (String × String) → String → String → List (String × String)
  | [], k, v => [(k, v)]
  | (k0, v0) :: rest, k, v =>
    if k0 = k then (k0, v) :: rest else (k0, v0) :: mapSet rest k v

/-- Map lookup `m[k]` with presence: the value of the first entry of `k`. -/
def mapGet : List (String × String) → String → Option String
  | [], _ => none
  | (k0, v0) :: rest, k => if k0 = k then some v0 else mapGet rest k

/-- The keys of a map, in the order of its entries. -/
def mapKeys (m : List (String × String)) : List String := m.map Prod.fst

/-- The value of the last entry with key `k` in a sequence of entries. -/
def lastValue : List (String × String) → String → Option String
  | [], _ => none
  | (k0, v0) :: rest, k =>
    match lastValue rest k with
    | some v => some v
    | none => if k0 = k then some v0 else none

/-- Modelled from the spec: the reader of the tag map inside
`avro.DeserializeSpan` (package `balance/avro`) is not in `receiver.go`.  The
wire form carries the tags as a sequence of key/value entries, in which a key
may occur more than once; the reader assigns them to a Go map in the order of
the wire form, so the mapping of the wire record has unique keys and, where
the wire form repeats a key, the last write wins (spec, section 3). -/
def readTags (entries : List (String × String)) : List (String × String) :=
  entries.foldl (fun m e => mapSet m e.1 e.2) []

/-! ## decodeKafkaMessage -/

/-- The loop `for key, value := range span.Tags` of `decodeKafkaMessage`:
`proxySpan.Tags[cache.String(key)] = cache.String(value)` for every entry, the
key being interned before the value. -/
def internTags {σ : Type} (intern : σ → String → String × σ) :
    σ → List (String × String) → List (String × String) → List (String × String) × σ
  | st, [], tags => (tags, st)
  | st, (key, value) :: rest, tags =>
    let k := intern st key
    let v := intern k.2 value
    internTags intern v.2 rest (mapSet tags k.1 v.1)

/-- The function `decodeKafkaMessage`.  It returns the pair `(proxy.Span, error)`
of the Go function and the state of the interning table after the call. -/
def decodeKafkaMessage {σ : Type} (deserialize : Bytes → Except GoError AvroSpan)
    (intern : σ → String → String × σ) (st : σ) (message : ConsumerMessage) :
    (Span × Option GoError) × σ :=
  match deserialize message.Value with
  | .error err => ((Span.zero, some (GoError.withMessage err "deserialize avro message")), st)
  | .ok span =>
    let name := intern st span.Name
    let service := intern name.2 span.Service
    let tags := internTags intern service.2 span.Tags []
    (({ Id := span.Id
        Parent := span.Parent
        Trace := span.Trace
        Name := name.1
        Service := service.1
        Tags := some tags.1
        Timestamp := span.TimestampInNanos
        Duration := span.DurationInNanos
        Timings := { CR := span.CrInNanos, CS := span.CsInNanos,
                     SR := span.SrInNanos, SS := span.SsInNanos } }, none), tags.2)

/-! ## The consumer-group handler -/

/-- The effects of the handler on the outside, in the order they happen. -/
inductive Effect where
  /-- the `range claim.Messages()` loop received `message` -/
  | receive (message : ConsumerMessage)
  /-- the call `log.Warnf("Cannot deserialize kafka message: %s", err)` -/
  | warn (err : GoError)
  /-- the call `consumer.callback(proxySpan)`, made and returned -/
  | callback (proxySpan : Span)
  /-- the call `session.MarkMessage(message, metadata)` -/
  | markMessage (message : ConsumerMessage) (metadata : String)
  /-- the call `log.Debugf("Member of consumer group with generation id %d", id)` -/
  | debugGeneration (id : Int)
  /-- the call `log.Debugf("  * claimed %s:%d", topic, partition)` -/
  | debugClaimed (topic : String) (partition : Int)
deriving DecidableEq, Repr

/-- What `Setup` reads of a `sarama.ConsumerGroupSession`: `GenerationID()` and
`Claims()`, the latter as the entries its `range` yields. -/
structure Session where
  GenerationID : Int
  Claims : List (String × List Int)
deriving DecidableEq, Repr

/-- The method `Setup`: the returned error and the effects. -/
def Setup (session : Session) : Option GoError × List Effect :=
  (none,
   Effect.debugGeneration session.GenerationID ::
     session.Claims.flatMap (fun claim =>
       claim.2.map (fun partition => Effect.debugClaimed claim.1 partition)))

/-- The method `Cleanup`: the returned error and the effects. -/
def Cleanup (_session : Session) : Option GoError × List Effect :=
  (none, [])

/-- The `for message := range claim.Messages()` loop of `ConsumeClaim`, over
the messages the claim delivers before its channel is closed. -/
def consumeLoop {σ : Type} (deserialize : Bytes → Except GoError AvroSpan)
    (intern : σ → String → String × σ) : σ → List ConsumerMessage → List Effect × σ
  | st, [] => ([], st)
  | st, message :: rest =>
    match decodeKafkaMessage deserialize intern st message with
    | ((_, some err), st1) =>
      let r := consumeLoop deserialize intern st1 rest
      (Effect.receive message :: Effect.warn err :: r.1, r.2)
    | ((proxySpan, none), st1) =>
      let r := consumeLoop deserialize intern st1 rest
      (Effect.receive message :: Effect.callback proxySpan ::
        Effect.markMessage message "" :: r.1, r.2)

/-- The method `ConsumeClaim`: the returned error, the effects, and the state
of the interning table after the call. -/
def ConsumeClaim {σ : Type} (deserialize : Bytes → Except GoError AvroSpan)
    (intern : σ → String → String × σ) (st : σ) (messages : List ConsumerMessage) :
    (Option GoError × List Effect) × σ :=
  let r := consumeLoop deserialize intern st messages
  ((none, r.1), r.2)

/-- The spans passed to the callback, in order. -/
def callbacks : List Effect → List Span
  | [] => []
  | Effect.callback s :: rest => s :: callbacks rest
  | _ :: rest => callbacks rest

/-- The messages acknowledged with `MarkMessage`, in order. -/
def marked : List Effect → List ConsumerMessage
  | [] => []
  | Effect.markMessage m _ :: rest => m :: marked rest
  | _ :: rest => marked rest

/-- The messages received from the claim, in order. -/
def received : List Effect → List ConsumerMessage
  | [] => []
  | Effect.receive m :: rest => m :: received rest
  | _ :: rest => received rest

/-- Whether the schema decoder accepts the payload of a message. -/
def decodes (deserialize : Bytes → Except GoError AvroSpan) (message : ConsumerMessage) : Bool :=
  match deserialize message.Value with
  | .ok _ => true
  | .error _ => false

/-! ## The supervisor loop of `Consume`

`Consume` launches one goroutine and returns the stop function.  The goroutine
and the callers of the stop function run concurrently; the model is the
interleaving of their steps.  The coordination layer (`consumerGroup`) is the
environment: while a call of `consumerGroup.Consume` is in progress it may
invoke the handler any number of times, and it decides when and with which
result the call returns.  It invokes the handler only inside such a call. -/

/-- Where the goroutine started by `Consume` is. -/
inductive LoopPC where
  /-- at the head of the `for`, about to run the `select` -/
  | atSelect
  /-- in the `default` branch, inside `consumerGroup.Consume(ctx, topics, handler)` -/
  | inSession
  /-- in the branch `case <-ctx.Done()`, before `close(finishedCh)` -/
  | cancelObserved
  /-- past `close(finishedCh)`, at the `return` that ends the goroutine -/
  | exited
deriving DecidableEq, Repr

/-- What the goroutine does that is visible outside it. -/
inductive LoopEvent where
  /-- a call `consumerGroup.Consume(ctx, topics, handler)` begins -/
  | sessionBegin (topics : List String)
  /-- an effect of the handler, invoked by the session in progress -/
  | handler (effect : Effect)
  /-- the call `log.Warnf("Error during consumer group session: %s", err)` -/
  | warnSession (err : GoError)
  /-- the call `close(finishedCh)` -/
  | closeFinished
deriving DecidableEq, Repr

/-- The state shared by the goroutine and the callers of the stop function. -/
structure Supervisor where
  /-- the `topic` argument of `Consume` -/
  topic : String
  /-- the position of the goroutine -/
  loop : LoopPC
  /-- whether `cancel()` has run, that is, `ctx.Done()` is closed -/
  ctxDone : Bool
  /-- whether `finishedCh` is closed -/
  finishedClosed : Bool
  /-- the calls of the stop function that have run `cancel()` and wait in `<-finishedCh` -/
  stopWaiting : Nat
  /-- the calls of the stop function that have returned -/
  stopReturned : Nat
  /-- the events of the goroutine so far -/
  trace : List LoopEvent
deriving DecidableEq, Repr

/-- The steps of the system. -/
inductive Action where
  /-- the goroutine runs the `select` -/
  | loopSelect
  /-- the session in progress invokes the handler, with the given effect -/
  | sessionHandler (effect : Effect)
  /-- the call `consumerGroup.Consume` in progress returns `result` -/
  | sessionReturn (result : Option GoError)
  /-- the goroutine runs `close(finishedCh)` and returns -/
  | loopClose
  /-- a caller of the stop function runs `cancel()` -/
  | stopCancel
  /-- the receive `<-finishedCh` of a waiting caller completes and the stop function returns -/
  | stopReceive
deriving DecidableEq, Repr

/-- The function `Consume`: the state in which it returns the stop function,
with the goroutine launched, the context not cancelled and `finishedCh` open. -/
def Consume (topic : String) : Supervisor :=
  { topic := topic, loop := .atSelect, ctxDone := false, finishedClosed := false,
    stopWaiting := 0, stopReturned := 0, trace := [] }

/-- One step of the system; `none` when the step cannot be taken in the state.
The `select` takes the branch of `ctx.Done()` when that channel is closed and
the `default` branch otherwise; a receive from `finishedCh` completes only once
the channel is closed. -/
def step (s : Supervisor) : Action → Option Supervisor
  | .loopSelect =>
    match s.loop with
    | .atSelect =>
      if s.ctxDone then some { s with loop := .cancelObserved }
      else some { s with loop := .inSession,
                         trace := s.trace ++ [LoopEvent.sessionBegin [s.topic]] }
    | _ => none
  | .sessionHandler effect =>
    match s.loop with
    | .inSession => some { s with trace := s.trace ++ [LoopEvent.handler effect] }
    | _ => none
  | .sessionReturn result =>
    match s.loop with
    | .inSession =>
      match result with
      | some err => some { s with loop := .atSelect,
                                  trace := s.trace ++ [LoopEvent.warnSession err] }
      | none => some { s with loop := .atSelect }
    | _ => none
  | .loopClose =>
    match s.loop with
    | .cancelObserved =>
      some { s with loop := .exited, finishedClosed := true,
                    trace := s.trace ++ [LoopEvent.closeFinished] }
    | _ => none
  | .stopCancel => some { s with ctxDone := true, stopWaiting := s.stopWaiting + 1 }
  | .stopReceive =>
    if s.finishedClosed ∧ 0 < s.stopWaiting then
      some { s with stopWaiting := s.stopWaiting - 1, stopReturned := s.stopReturned + 1 }
    else none

/-- A sequence of steps. -/
def run (s : Supervisor) : List Action → Option Supervisor
  | [] => some s
  | a :: rest =>
    match step s a with
    | some s1 => run s1 rest
    | none => none

/-- The number of session attempts begun in a trace. -/
def sessionsBegun : List LoopEvent → Nat
  | [] => 0
  | LoopEvent.sessionBegin _ :: rest => sessionsBegun rest + 1
  | _ :: rest => sessionsBegun rest

/-- The steps of the goroutine when no cancellation occurs and the successive
session attempts return `results`: a `select` and a return for each. -/
def attempts : List (Option GoError) → List Action
  | [] => []
  | result :: rest => Action.loopSelect :: Action.sessionReturn result :: attempts rest

/-- The invariant of the system that relates the stop function to the loop. -/
def StopInv (s : Supervisor) : Prop :=
  ((s.loop = .cancelObserved ∨ s.loop = .exited) → s.ctxDone = true) ∧
  (s.finishedClosed = true →
    s.loop = .exited ∧ s.trace.getLast? = some LoopEvent.closeFinished) ∧
  (0 < s.stopReturned → s.finishedClosed = true)

/-! ## Sample inputs -/

/-- An interning function that returns its argument and counts its calls. -/
def countingIntern (calls : Nat) (s : String) : String × Nat := (s, calls + 1)

/-- A small schema decoder: the empty payload is refused, any other payload
decodes to a span whose identifier is the first byte. -/
def sampleDeserialize : Bytes → Except GoError AvroSpan
  | [] => .error (GoError.base "EOF")
  | b :: _ =>
    .ok { Id := b, Parent := 2, Trace := 3, Name := "get", Service := "web",
          TimestampInNanos := 1000, DurationInNanos := 50,
          CrInNanos := 4, CsInNanos := 5, SrInNanos := 6, SsInNanos := 7,
          Tags := [("host", "a"), ("zone", "b")] }

/-- A schema decoder for a wire form whose tag entries give the key `k` twice:
the tag map of the span is the one `readTags` builds, ranged here in the
reverse of the order of insertion, `j` before `k`. -/
def repeatingDeserialize : Bytes → Except GoError AvroSpan
  | _ =>
    .ok { Id := 1, Parent := 2, Trace := 3, Name := "get", Service := "web",
          TimestampInNanos := 1000, DurationInNanos := 50,
          CrInNanos := 4, CsInNanos := 5, SrInNanos := 6, SsInNanos := 7,
          Tags := (readTags [("k", "old"), ("j", "x"), ("k", "new")]).reverse }

/-- A message with the given payload and offset on partition 0 of `spans`. -/
def sampleMessage (value : Bytes) (offset : Int) : ConsumerMessage :=
  { Headers := [], Timestamp := 0, BlockTimestamp := 0, Key := [], Value := value,
    Topic := "spans", Partition := 0, Offset := offset }

/-- The span that `sampleDeserialize` and value-preserving interning give for a
payload whose first byte is `b`. -/
def sampleSpan (b : Int) : Span :=
  { Id := b, Parent := 2, Trace := 3, Name := "get", Service := "web",
    Tags := some [("host", "a"), ("zone", "b")], Timestamp := 1000, Duration := 50,
    Timings := { CS := 5, CR := 4, SS := 7, SR := 6 } }

/-- A run of the system in which a stop call returns: one session attempt with
a callback invocation, cancelled while in progress and ended with an error. -/
def sampleStopRun : List Action :=
  [Action.loopSelect, Action.sessionHandler (Effect.callback (sampleSpan 9)),
   Action.stopCancel, Action.sessionReturn (some (GoError.base "context canceled")),
   Action.loopSelect, Action.loopClose, Action.stopReceive]

/-! ## Lemmas on maps -/

theorem mapGet_mapSet (m : List (String × String)) (k v k' : String) :
    mapGet (mapSet m k v) k' = if k = k' then some v else mapGet m k' := by
  induction m with
  | nil => simp [mapSet, mapGet]
  | cons e rest ih =>
    obtain ⟨k0, v0⟩ := e
    by_cases h0 : k0 = k
    · subst h0
      by_cases h1 : k0 = k' <;> simp [mapSet, mapGet, h1]
    · by_cases h1 : k0 = k'
      · subst h1
        have h2 : ¬ k = k0 := fun h => h0 h.symm
        simp [mapSet, mapGet, h0, h2]
      · simp [mapSet, mapGet, h0, h1, ih]

theorem mapKeys_mapSet_mem (m : List (String × String)) (k v k' : String) :
    k' ∈ mapKeys (mapSet m k v) ↔ k' = k ∨ k' ∈ mapKeys m := by
  induction m with
  | nil => simp [mapSet, mapKeys]
  | cons e rest ih =>
    obtain ⟨k0, v0⟩ := e
    by_cases h0 : k0 = k
    · subst h0
      simp [mapSet, mapKeys]
    · have ih' : k' ∈ List.map Prod.fst (mapSet rest k v) ↔
          k' = k ∨ k' ∈ List.map Prod.fst rest := ih
      simp only [mapSet, h0, mapKeys, if_false, List.map_cons, List.mem_cons, ih']
      tauto

theorem mapKeys_mapSet_nodup (m : List (String × String)) (k v : String)
    (h : (mapKeys m).Nodup) : (mapKeys (mapSet m k v)).Nodup := by
  induction m with
  | nil => simp [mapSet, mapKeys]
  | cons e rest ih =>
    obtain ⟨k0, v0⟩ := e
    have hn : k0 ∉ mapKeys rest ∧ (mapKeys rest).Nodup := by
      simpa [mapKeys] using h
    by_cases h0 : k0 = k
    · subst h0
      simpa [mapSet, mapKeys] using h
    · have h1 : k0 ∉ mapKeys (mapSet rest k v) := by
        rw [mapKeys_mapSet_mem]
        rintro (h2 | h2)
        · exact h0 h2
        · exact hn.1 h2
      have h3 := ih hn.2
      simp only [mapSet, h0, if_false]
      exact List.nodup_cons.mpr ⟨h1, h3⟩

theorem mapGet_eq_none_iff (m : List (String × String)) (k : String) :
    mapGet m k = none ↔ k ∉ mapKeys m := by
  induction m with
  | nil => simp [mapGet, mapKeys]
  | cons e rest ih =>
    obtain ⟨k0, v0⟩ := e
    have ih' : mapGet rest k = none ↔ k ∉ List.map Prod.fst rest := ih
    by_cases h0 : k0 = k
    · subst h0
      simp [mapGet, mapKeys]
    · have h1 : ¬ k = k0 := fun h => h0 h.symm
      simp [mapGet, mapKeys, h0, h1, ih']

theorem lastValue_eq_none_iff (m : List (String × String)) (k : String) :
    lastValue m k = none ↔ k ∉ mapKeys m := by
  induction m with
  | nil => simp [lastValue, mapKeys]
  | cons e rest ih =>
    obtain ⟨k0, v0⟩ := e
    have ih' : lastValue rest k = none ↔ k ∉ List.map Prod.fst rest := ih
    cases hl : lastValue rest k with
    | none =>
      have hr := ih'.mp hl
      by_cases h0 : k0 = k
      · subst h0
        simp [lastValue, hl, mapKeys]
      · have h1 : ¬ k = k0 := fun h => h0 h.symm
        simp [lastValue, hl, mapKeys, h0, h1, hr]
    | some v =>
      have hr : ¬ (k ∉ List.map Prod.fst rest) := fun hc => by
        rw [ih'.mpr hc] at hl
        cases hl
      have hr' : k ∈ List.map Prod.fst rest := not_not.mp hr
      simp [lastValue, hl, mapKeys, hr']

theorem lastValue_eq_mapGet (m : List (String × String)) (k : String)
    (h : (mapKeys m).Nodup) : lastValue m k = mapGet m k := by
  induction m with
  | nil => simp [lastValue, mapGet]
  | cons e rest ih =>
    obtain ⟨k0, v0⟩ := e
    have hn : k0 ∉ mapKeys rest ∧ (mapKeys rest).Nodup := by
      simpa [mapKeys] using h
    have ih' := ih hn.2
    by_cases h0 : k0 = k
    · subst h0
      have h1 : lastValue rest k0 = none := (lastValue_eq_none_iff rest k0).mpr hn.1
      simp [lastValue, mapGet, h1]
    · cases hl : lastValue rest k with
      | none => simp [lastValue, mapGet, h0, hl, ← ih']
      | some v => simp [lastValue, mapGet, h0, hl, ← ih']

theorem mapGet_eq_some_iff_mem (m : List (String × String)) (k v : String)
    (h : (mapKeys m).Nodup) : mapGet m k = some v ↔ (k, v) ∈ m := by
  induction m with
  | nil => simp [mapGet]
  | cons e rest ih =>
    obtain ⟨k0, v0⟩ := e
    have hn : k0 ∉ mapKeys rest ∧ (mapKeys rest).Nodup := by
      simpa [mapKeys] using h
    have ih1 := ih hn.2
    by_cases h0 : k0 = k
    · subst h0
      have hnot : (k0, v) ∉ rest := fun hc =>
        hn.1 (List.mem_map.mpr ⟨(k0, v), hc, rfl⟩)
      simp only [mapGet, if_true, Option.some.injEq, List.mem_cons, Prod.mk.injEq,
        true_and, hnot, or_false]
      exact eq_comm
    · have h1 : ¬ k = k0 := fun hc => h0 hc.symm
      simp only [mapGet, h0, if_false, ih1, List.mem_cons, Prod.mk.injEq, h1, false_and,
        false_or]

theorem mapGet_perm (m1 m2 : List (String × String)) (k : String)
    (h : (mapKeys m1).Nodup) (hp : m1.Perm m2) : mapGet m1 k = mapGet m2 k := by
  have h2 : (mapKeys m2).Nodup := (List.Perm.nodup_iff (hp.map Prod.fst)).mp h
  apply Option.ext
  intro v
  rw [Option.mem_def, Option.mem_def, mapGet_eq_some_iff_mem m1 k v h,
    mapGet_eq_some_iff_mem m2 k v h2]
  exact hp.mem_iff

theorem foldl_mapSet_get (entries : List (String × String)) :
    ∀ (acc : List (String × String)) (k : String),
      mapGet (entries.foldl (fun m e => mapSet m e.1 e.2) acc) k =
        match lastValue entries k with
        | some v => some v
        | none => mapGet acc k := by
  induction entries with
  | nil => intro acc k; simp [lastValue]
  | cons e rest ih =>
    obtain ⟨key, value⟩ := e
    intro acc k
    simp only [List.foldl_cons, lastValue]
    rw [ih, mapGet_mapSet]
    cases lastValue rest k with
    | some v => rfl
    | none => by_cases h0 : key = k <;> simp [h0]

theorem foldl_mapSet_nodup (entries : List (String × String)) :
    ∀ acc : List (String × String), (mapKeys acc).Nodup →
      (mapKeys (entries.foldl (fun m e => mapSet m e.1 e.2) acc)).Nodup := by
  induction entries with
  | nil => intro acc h; simpa using h
  | cons e rest ih =>
    intro acc h
    simp only [List.foldl_cons]
    exact ih _ (mapKeys_mapSet_nodup _ _ _ h)

theorem readTags_get (entries : List (String × String)) (k : String) :
    mapGet (readTags entries) k = lastValue entries k := by
  unfold readTags
  rw [foldl_mapSet_get]
  cases lastValue entries k <;> simp [mapGet]

theorem readTags_nodup (entries : List (String × String)) :
    (mapKeys (readTags entries)).Nodup :=
  foldl_mapSet_nodup entries [] (by simp [mapKeys])

/-! ## Lemmas on the tag loop -/

theorem internTags_get {σ : Type} (intern : σ → String → String × σ)
    (hintern : ∀ st s, (intern st s).1 = s) (entries : List (String × String)) :
    ∀ (st : σ) (tags : List (String × String)) (k : String),
      mapGet (internTags intern st entries tags).1 k =
        match lastValue entries k with
        | some v => some v
        | none => mapGet tags k := by
  induction entries with
  | nil => intro st tags k; simp [internTags, lastValue]
  | cons e rest ih =>
    obtain ⟨key, value⟩ := e
    intro st tags k
    simp only [internTags, lastValue]
    rw [ih, hintern, hintern, mapGet_mapSet]
    cases lastValue rest k with
    | some v => rfl
    | none => by_cases h0 : key = k <;> simp [h0]

theorem internTags_nodup {σ : Type} (intern : σ → String → String × σ)
    (entries : List (String × String)) :
    ∀ (st : σ) (tags : List (String × String)), (mapKeys tags).Nodup →
      (mapKeys (internTags intern st entries tags).1).Nodup := by
  induction entries with
  | nil => intro st tags h; simpa [internTags] using h
  | cons e rest ih =>
    obtain ⟨key, value⟩ := e
    intro st tags h
    simp only [internTags]
    exact ih _ _ (mapKeys_mapSet_nodup _ _ _ h)

/-! ## The record decoder -/

/-- C3: when the schema decoder accepts the payload with wire record `w`, and
interning returns a string equal in value to its argument, `decodeKafkaMessage`
returns no error and a span whose identifiers, name, service, timestamp,
duration and four timings are those of `w`, and whose tags are, as a mapping,
the tags of `w`: same key set, same value for every key.  The keys of the map
`w.Tags` are pairwise distinct, as for every Go map. -/
theorem decodeKafkaMessage_roundtrip {σ : Type}
    (deserialize : Bytes → Except GoError AvroSpan) (intern : σ → String → String × σ)
    (hintern : ∀ st s, (intern st s).1 = s) (st : σ) (message : ConsumerMessage)
    (w : AvroSpan) (hw : deserialize message.Value = .ok w)
    (hmap : (mapKeys w.Tags).Nodup) :
    (decodeKafkaMessage deserialize intern st message).1.2 = none ∧
    (decodeKafkaMessage deserialize intern st message).1.1.Id = w.Id ∧
    (decodeKafkaMessage deserialize intern st message).1.1.Parent = w.Parent ∧
    (decodeKafkaMessage deserialize intern st message).1.1.Trace = w.Trace ∧
    (decodeKafkaMessage deserialize intern st message).1.1.Name = w.Name ∧
    (decodeKafkaMessage deserialize intern st message).1.1.Service = w.Service ∧
    (decodeKafkaMessage deserialize intern st message).1.1.Timestamp = w.TimestampInNanos ∧
    (decodeKafkaMessage deserialize intern st message).1.1.Duration = w.DurationInNanos ∧
    (decodeKafkaMessage deserialize intern st message).1.1.Timings.CS = w.CsInNanos ∧
    (decodeKafkaMessage deserialize intern st message).1.1.Timings.CR = w.CrInNanos ∧
    (decodeKafkaMessage deserialize intern st message).1.1.Timings.SS = w.SsInNanos ∧
    (decodeKafkaMessage deserialize intern st message).1.1.Timings.SR = w.SrInNanos ∧
    ∃ tags, (decodeKafkaMessage deserialize intern st message).1.1.Tags = some tags ∧
      (∀ k, k ∈ mapKeys tags ↔ k ∈ mapKeys w.Tags) ∧
      ∀ k, mapGet tags k = mapGet w.Tags k := by
  unfold decodeKafkaMessage
  rw [hw]
  refine ⟨rfl, rfl, rfl, rfl, hintern _ _, hintern _ _, rfl, rfl, rfl, rfl, rfl, rfl,
    _, rfl, ?_, ?_⟩
  · intro k
    have h1 := internTags_get intern hintern w.Tags (intern (intern st w.Name).2 w.Service).2 [] k
    rw [← not_iff_not, ← mapGet_eq_none_iff, ← lastValue_eq_none_iff, h1]
    cases lastValue w.Tags k <;> simp [mapGet]
  · intro k
    have h1 := internTags_get intern hintern w.Tags (intern (intern st w.Name).2 w.Service).2 [] k
    rw [h1, ← lastValue_eq_mapGet w.Tags k hmap]
    cases lastValue w.Tags k <;> simp [mapGet]

/-- The round trip of C3 on a sample payload. -/
theorem decodeKafkaMessage_roundtrip_witness :
    (∀ (st : Nat) (s : String), (countingIntern st s).1 = s) ∧
    sampleDeserialize (sampleMessage [9] 0).Value =
      .ok { Id := 9, Parent := 2, Trace := 3, Name := "get", Service := "web",
            TimestampInNanos := 1000, DurationInNanos := 50,
            CrInNanos := 4, CsInNanos := 5, SrInNanos := 6, SsInNanos := 7,
            Tags := [("host", "a"), ("zone", "b")] } ∧
    (mapKeys [("host", "a"), ("zone", "b")]).Nodup ∧
    (decodeKafkaMessage sampleDeserialize countingIntern 0 (sampleMessage [9] 0)).1.1.Id = 9 ∧
    (decodeKafkaMessage sampleDeserialize countingIntern 0 (sampleMessage [9] 0)).1.1.Timings.CS = 5 :=
  have h := decodeKafkaMessage_roundtrip sampleDeserialize countingIntern (fun _ _ => rfl) 0
    (sampleMessage [9] 0)
    { Id := 9, Parent := 2, Trace := 3, Name := "get", Service := "web",
      TimestampInNanos := 1000, DurationInNanos := 50,
      CrInNanos := 4, CsInNanos := 5, SrInNanos := 6, SsInNanos := 7,
      Tags := [("host", "a"), ("zone", "b")] } rfl (by decide)
  ⟨fun _ _ => rfl, rfl, by decide, h.2.1, h.2.2.2.2.2.2.2.2.1⟩

/-- C4: `decodeKafkaMessage` returns an error exactly when the schema decoder
fails on the payload.  When the decoder fails with cause `c`, the returned
error is `c` wrapped with the message `deserialize avro message` (so `c` is the
attached cause and the error string is that message, a colon, and the string of
`c`), the returned span is the zero value, the interning table is left as it
was, and the result is the same whatever the interning function: it is not
called. -/
theorem decodeKafkaMessage_error {σ : Type}
    (deserialize : Bytes → Except GoError AvroSpan) (intern : σ → String → String × σ)
    (st : σ) (message : ConsumerMessage) :
    ((decodeKafkaMessage deserialize intern st message).1.2 ≠ none ↔
      ∃ c, deserialize message.Value = .error c) ∧
    ∀ c, deserialize message.Value = .error c →
      (decodeKafkaMessage deserialize intern st message).1.2 =
        some (GoError.withMessage c "deserialize avro message") ∧
      (GoError.withMessage c "deserialize avro message").Unwrap = some c ∧
      (GoError.withMessage c "deserialize avro message").Error =
        "deserialize avro message" ++ ": " ++ c.Error ∧
      (decodeKafkaMessage deserialize intern st message).1.1 = Span.zero ∧
      (decodeKafkaMessage deserialize intern st message).2 = st ∧
      ∀ intern2 : σ → String → String × σ,
        decodeKafkaMessage deserialize intern2 st message =
          decodeKafkaMessage deserialize intern st message := by
  constructor
  · cases h : deserialize message.Value with
    | error e => simp [decodeKafkaMessage, h]
    | ok w => simp [decodeKafkaMessage, h]
  · intro c hc
    simp [decodeKafkaMessage, hc, GoError.Unwrap, GoError.Error]

/-- The failure case of C4 on the empty payload, with an interning function
that counts its calls: the count stays at zero. -/
theorem decodeKafkaMessage_error_witness :
    sampleDeserialize (sampleMessage [] 0).Value = .error (GoError.base "EOF") ∧
    (decodeKafkaMessage sampleDeserialize countingIntern 0 (sampleMessage [] 0)).1.2 =
      some (GoError.withMessage (GoError.base "EOF") "deserialize avro message") ∧
    (decodeKafkaMessage sampleDeserialize countingIntern 0 (sampleMessage [] 0)).1.1 = Span.zero ∧
    (decodeKafkaMessage sampleDeserialize countingIntern 0 (sampleMessage [] 0)).2 = 0 :=
  have h := (decodeKafkaMessage_error sampleDeserialize countingIntern 0 (sampleMessage [] 0)).2
    (GoError.base "EOF") rfl
  ⟨rfl, h.1, h.2.2.2.1, h.2.2.2.2.1⟩

/-- C6: for every wire form whose tag entries are `entries`, a key possibly
occurring more than once, which the schema decoder turns into the wire record
`w` (its tag map is the one the reader builds from `entries`, ranged in any
order), and interning that returns a string equal in value to its argument,
the tags of the span returned by `decodeKafkaMessage` contain each key of
`entries` exactly once, and no other key, and the value stored for a key is
the value of the last entry of `entries` with that key. -/
theorem decodeKafkaMessage_tags_last_write_wins {σ : Type}
    (deserialize : Bytes → Except GoError AvroSpan) (intern : σ → String → String × σ)
    (hintern : ∀ st s, (intern st s).1 = s) (st : σ) (message : ConsumerMessage)
    (w : AvroSpan) (entries : List (String × String))
    (hw : deserialize message.Value = .ok w)
    (htags : w.Tags.Perm (readTags entries)) :
    ∃ tags, (decodeKafkaMessage deserialize intern st message).1.1.Tags = some tags ∧
      (∀ k, (mapKeys tags).count k = if k ∈ mapKeys entries then 1 else 0) ∧
      ∀ k, mapGet tags k = lastValue entries k := by
  have hnd : (mapKeys w.Tags).Nodup :=
    (List.Perm.nodup_iff (htags.map Prod.fst)).mpr (readTags_nodup entries)
  have hget : ∀ k, mapGet (internTags intern (intern (intern st w.Name).2 w.Service).2
      w.Tags []).1 k = lastValue entries k := by
    intro k
    have h1 := internTags_get intern hintern w.Tags (intern (intern st w.Name).2 w.Service).2 [] k
    rw [h1, ← readTags_get entries k, ← mapGet_perm w.Tags (readTags entries) k hnd htags,
      ← lastValue_eq_mapGet w.Tags k hnd]
    cases lastValue w.Tags k <;> simp [mapGet]
  unfold decodeKafkaMessage
  rw [hw]
  refine ⟨_, rfl, ?_, hget⟩
  intro k
  have h2 := internTags_nodup intern w.Tags (intern (intern st w.Name).2 w.Service).2 []
    (by simp [mapKeys])
  have h3 : k ∈ mapKeys (internTags intern (intern (intern st w.Name).2 w.Service).2
      w.Tags []).1 ↔ k ∈ mapKeys entries := by
    rw [← not_iff_not, ← mapGet_eq_none_iff, ← lastValue_eq_none_iff, hget]
  by_cases hk : k ∈ mapKeys entries
  · rw [if_pos hk]
    exact List.count_eq_one_of_mem h2 (h3.mpr hk)
  · rw [if_neg hk]
    exact List.count_eq_zero_of_not_mem (fun hc => hk (h3.mp hc))

/-- The policy of C6 on a wire form that gives the key `k` twice, first with
`old` and last with `new`: the wire record holds the map in the order `j`,
`k`, and the decoded tags hold `k` once, with `new`. -/
theorem decodeKafkaMessage_tags_last_write_wins_witness :
    (∀ (st : Nat) (s : String), (countingIntern st s).1 = s) ∧
    repeatingDeserialize (sampleMessage [1] 0).Value =
      .ok { Id := 1, Parent := 2, Trace := 3, Name := "get", Service := "web",
            TimestampInNanos := 1000, DurationInNanos := 50,
            CrInNanos := 4, CsInNanos := 5, SrInNanos := 6, SsInNanos := 7,
            Tags := [("j", "x"), ("k", "new")] } ∧
    List.Perm [("j", "x"), ("k", "new")] (readTags [("k", "old"), ("j", "x"), ("k", "new")]) ∧
    (decodeKafkaMessage repeatingDeserialize countingIntern 0 (sampleMessage [1] 0)).1.1.Tags =
      some [("j", "x"), ("k", "new")] ∧
    ∃ tags,
      (decodeKafkaMessage repeatingDeserialize countingIntern 0 (sampleMessage [1] 0)).1.1.Tags =
        some tags ∧
      (∀ k, (mapKeys tags).count k =
        if k ∈ mapKeys [("k", "old"), ("j", "x"), ("k", "new")] then 1 else 0) ∧
      ∀ k, mapGet tags k = lastValue [("k", "old"), ("j", "x"), ("k", "new")] k :=
  ⟨fun _ _ => rfl, rfl, List.reverse_perm (readTags [("k", "old"), ("j", "x"), ("k", "new")]),
    by decide,
    decodeKafkaMessage_tags_last_write_wins repeatingDeserialize countingIntern
      (fun _ _ => rfl) 0 (sampleMessage [1] 0)
      { Id := 1, Parent := 2, Trace := 3, Name := "get", Service := "web",
        TimestampInNanos := 1000, DurationInNanos := 50,
        CrInNanos := 4, CsInNanos := 5, SrInNanos := 6, SsInNanos := 7,
        Tags := [("j", "x"), ("k", "new")] }
      [("k", "old"), ("j", "x"), ("k", "new")] rfl
      (List.reverse_perm (readTags [("k", "old"), ("j", "x"), ("k", "new")]))⟩

/-- C10: `decodeKafkaMessage` reads only the payload of the message: two
messages with the same `Value`, whatever their other fields, give the same
result for the same schema decoder, interning function and interning table. -/
theorem decodeKafkaMessage_value_only {σ : Type}
    (deserialize : Bytes → Except GoError AvroSpan) (intern : σ → String → String × σ)
    (st : σ) (m1 m2 : ConsumerMessage) (hvalue : m1.Value = m2.Value) :
    decodeKafkaMessage deserialize intern st m1 = decodeKafkaMessage deserialize intern st m2 := by
  simp only [decodeKafkaMessage, hvalue]

/-- The independence of C10 on two messages that differ in topic, partition,
offset, key, headers and timestamps. -/
theorem decodeKafkaMessage_value_only_witness :
    (sampleMessage [9] 0).Value =
      ({ Headers := [([1], [2])], Timestamp := 77, BlockTimestamp := 78, Key := [5],
         Value := [9], Topic := "other", Partition := 3, Offset := 41 } : ConsumerMessage).Value ∧
    decodeKafkaMessage sampleDeserialize countingIntern 0 (sampleMessage [9] 0) =
      decodeKafkaMessage sampleDeserialize countingIntern 0
        { Headers := [([1], [2])], Timestamp := 77, BlockTimestamp := 78, Key := [5],
          Value := [9], Topic := "other", Partition := 3, Offset := 41 } :=
  ⟨rfl, decodeKafkaMessage_value_only sampleDeserialize countingIntern 0 (sampleMessage [9] 0)
    { Headers := [([1], [2])], Timestamp := 77, BlockTimestamp := 78, Key := [5],
      Value := [9], Topic := "other", Partition := 3, Offset := 41 } rfl⟩

/-! ## The claim processor -/

theorem consumeLoop_cons_error {σ : Type} (deserialize : Bytes → Except GoError AvroSpan)
    (intern : σ → String → String × σ) (st : σ) (message : ConsumerMessage)
    (rest : List ConsumerMessage) (c : GoError) (h : deserialize message.Value = .error c) :
    consumeLoop deserialize intern st (message :: rest) =
      (Effect.receive message ::
        Effect.warn (GoError.withMessage c "deserialize avro message") ::
        (consumeLoop deserialize intern st rest).1,
       (consumeLoop deserialize intern st rest).2) := by
  simp [consumeLoop, decodeKafkaMessage, h]

theorem consumeLoop_cons_ok {σ : Type} (deserialize : Bytes → Except GoError AvroSpan)
    (intern : σ → String → String × σ) (st : σ) (message : ConsumerMessage)
    (rest : List ConsumerMessage) (w : AvroSpan) (h : deserialize message.Value = .ok w) :
    (decodeKafkaMessage deserialize intern st message).1.2 = none ∧
    consumeLoop deserialize intern st (message :: rest) =
      (Effect.receive message ::
        Effect.callback (decodeKafkaMessage deserialize intern st message).1.1 ::
        Effect.markMessage message "" ::
        (consumeLoop deserialize intern
          (decodeKafkaMessage deserialize intern st message).2 rest).1,
       (consumeLoop deserialize intern
          (decodeKafkaMessage deserialize intern st message).2 rest).2) := by
  simp [consumeLoop, decodeKafkaMessage, h]

theorem consumeLoop_tail_shape {σ : Type} (deserialize : Bytes → Except GoError AvroSpan)
    (intern : σ → String → String × σ) (st : σ) (messages : List ConsumerMessage) :
    (consumeLoop deserialize intern st messages).1 = [] ∨
    ∃ m q, (consumeLoop deserialize intern st messages).1 = Effect.receive m :: q := by
  cases messages with
  | nil => left; simp [consumeLoop]
  | cons m rest =>
    right
    cases h : deserialize m.Value with
    | error c => exact ⟨m, _, by rw [consumeLoop_cons_error _ _ _ _ _ c h]⟩
    | ok w => exact ⟨m, _, by rw [(consumeLoop_cons_ok _ _ _ _ _ w h).2]⟩

/-- C1: for every sequence of messages of a claim and every schema decoder,
the messages acknowledged by `ConsumeClaim` are exactly the messages whose
decode succeeds, in their order; the callback is invoked once for each of them,
in the same order, with the span decoded from that message, and never for a
message whose decode fails; so the number of callback invocations, and of
acknowledgments, is the number of messages less the number of malformed ones. -/
theorem ConsumeClaim_decode_isolation {σ : Type}
    (deserialize : Bytes → Except GoError AvroSpan) (intern : σ → String → String × σ)
    (st : σ) (messages : List ConsumerMessage) :
    marked (ConsumeClaim deserialize intern st messages).1.2 =
      messages.filter (decodes deserialize) ∧
    List.Forall₂
      (fun span m => ∃ st1, (decodeKafkaMessage deserialize intern st1 m).1 = (span, none))
      (callbacks (ConsumeClaim deserialize intern st messages).1.2)
      (messages.filter (decodes deserialize)) ∧
    (callbacks (ConsumeClaim deserialize intern st messages).1.2).length +
      (messages.filter (fun m => !decodes deserialize m)).length = messages.length ∧
    (marked (ConsumeClaim deserialize intern st messages).1.2).length +
      (messages.filter (fun m => !decodes deserialize m)).length = messages.length := by
  simp only [ConsumeClaim]
  induction messages generalizing st with
  | nil => simp [consumeLoop, marked, callbacks]
  | cons m rest ih =>
    cases h : deserialize m.Value with
    | error c =>
      have hd : decodes deserialize m = false := by simp [decodes, h]
      rw [consumeLoop_cons_error _ _ _ _ _ c h]
      obtain ⟨h1, h2, h3, h4⟩ := ih st
      simp only [marked, callbacks, List.filter_cons, hd, Bool.not_false, if_true,
        List.length_cons]
      refine ⟨by simpa using h1, by simpa using h2, by omega, by omega⟩
    | ok w =>
      have hd : decodes deserialize m = true := by simp [decodes, h]
      obtain ⟨he, hc⟩ := consumeLoop_cons_ok deserialize intern st m rest w h
      rw [hc]
      obtain ⟨h1, h2, h3, h4⟩ := ih (decodeKafkaMessage deserialize intern st m).2
      simp only [marked, callbacks, List.filter_cons, hd, Bool.not_true, if_true,
        List.length_cons]
      refine ⟨by simpa using h1, ?_, by simp at h3 ⊢; omega, by simp at h4 ⊢; omega⟩
      exact List.Forall₂.cons ⟨st, Prod.ext rfl he⟩ h2

/-- C2: wherever an acknowledgment of a message `m` stands in the trace of
`ConsumeClaim`, the messages split at `m` so that everything before the
acknowledgment is the whole processing of the earlier messages followed by the
receipt of `m` and the callback call on the span decoded from `m`, and
everything after it is the processing of the later messages, which is empty or
starts with the receipt of the next message. -/
theorem ConsumeClaim_ack_after_callback {σ : Type}
    (deserialize : Bytes → Except GoError AvroSpan) (intern : σ → String → String × σ)
    (st : σ) (messages : List ConsumerMessage)
    (p q : List Effect) (m : ConsumerMessage) (metadata : String)
    (h : (ConsumeClaim deserialize intern st messages).1.2 =
      p ++ Effect.markMessage m metadata :: q) :
    ∃ earlier later,
      messages = earlier ++ m :: later ∧ metadata = "" ∧
      (decodeKafkaMessage deserialize intern
        (ConsumeClaim deserialize intern st earlier).2 m).1.2 = none ∧
      p = (ConsumeClaim deserialize intern st earlier).1.2 ++
        [Effect.receive m,
         Effect.callback (decodeKafkaMessage deserialize intern
           (ConsumeClaim deserialize intern st earlier).2 m).1.1] ∧
      q = (ConsumeClaim deserialize intern
        (decodeKafkaMessage deserialize intern
          (ConsumeClaim deserialize intern st earlier).2 m).2 later).1.2 ∧
      (q = [] ∨ ∃ next q1, q = Effect.receive next :: q1) := by
  simp only [ConsumeClaim] at h ⊢
  induction messages generalizing st p with
  | nil =>
    simp only [consumeLoop] at h
    cases p <;> cases h
  | cons m0 rest ih =>
    cases hm : deserialize m0.Value with
    | error c =>
      rw [consumeLoop_cons_error _ _ _ _ _ c hm] at h
      match p, h with
      | _ :: _ :: p2, h =>
        simp only [List.cons_append, List.cons.injEq] at h
        obtain ⟨hr, hw, h⟩ := h
        obtain ⟨earlier, later, e1, e2, e3, e4, e5, e6⟩ := ih st p2 h
        refine ⟨m0 :: earlier, later, by rw [e1]; rfl, e2, ?_, ?_, ?_, e6⟩
        · rw [consumeLoop_cons_error _ _ _ _ _ c hm]; exact e3
        · rw [consumeLoop_cons_error _ _ _ _ _ c hm, hr, hw, e4]; rfl
        · rw [consumeLoop_cons_error _ _ _ _ _ c hm]; exact e5
    | ok w =>
      obtain ⟨he, hc⟩ := consumeLoop_cons_ok deserialize intern st m0 rest w hm
      rw [hc] at h
      match p, h with
      | [_, _], h =>
        simp only [List.cons_append, List.nil_append, List.cons.injEq,
          Effect.markMessage.injEq] at h
        obtain ⟨hr, hcb, ⟨hm0, hmd⟩, hq⟩ := h
        subst hm0
        refine ⟨[], rest, rfl, hmd.symm, ?_, ?_, ?_, ?_⟩
        · simpa [consumeLoop] using he
        · simp [consumeLoop, hr, hcb]
        · simpa [consumeLoop] using hq.symm
        · rw [← hq]
          exact consumeLoop_tail_shape deserialize intern _ rest
      | _ :: _ :: _ :: p3, h =>
        simp only [List.cons_append, List.cons.injEq] at h
        obtain ⟨hr, hcb, hmk, h⟩ := h
        obtain ⟨earlier, later, e1, e2, e3, e4, e5, e6⟩ :=
          ih (decodeKafkaMessage deserialize intern st m0).2 p3 h
        refine ⟨m0 :: earlier, later, by rw [e1]; rfl, e2, ?_, ?_, ?_, e6⟩
        · rw [(consumeLoop_cons_ok deserialize intern st m0 earlier w hm).2]; exact e3
        · rw [(consumeLoop_cons_ok deserialize intern st m0 earlier w hm).2, hr, hcb, hmk, e4]
          rfl
        · rw [(consumeLoop_cons_ok deserialize intern st m0 earlier w hm).2]; exact e5

/-- The ordering of C2 on three messages of which the second is malformed, at
the acknowledgment of the third. -/
theorem ConsumeClaim_ack_after_callback_witness :
    (ConsumeClaim sampleDeserialize countingIntern 0
        [sampleMessage [9] 0, sampleMessage [] 1, sampleMessage [7] 2]).1.2 =
      [Effect.receive (sampleMessage [9] 0), Effect.callback (sampleSpan 9),
       Effect.markMessage (sampleMessage [9] 0) "",
       Effect.receive (sampleMessage [] 1),
       Effect.warn (GoError.withMessage (GoError.base "EOF") "deserialize avro message"),
       Effect.receive (sampleMessage [7] 2), Effect.callback (sampleSpan 7)] ++
      Effect.markMessage (sampleMessage [7] 2) "" :: [] ∧
    ∃ earlier later,
      [sampleMessage [9] 0, sampleMessage [] 1, sampleMessage [7] 2] =
        earlier ++ sampleMessage [7] 2 :: later ∧ "" = "" ∧
      (decodeKafkaMessage sampleDeserialize countingIntern
        (ConsumeClaim sampleDeserialize countingIntern 0 earlier).2
        (sampleMessage [7] 2)).1.2 = none ∧
      [Effect.receive (sampleMessage [9] 0), Effect.callback (sampleSpan 9),
       Effect.markMessage (sampleMessage [9] 0) "",
       Effect.receive (sampleMessage [] 1),
       Effect.warn (GoError.withMessage (GoError.base "EOF") "deserialize avro message"),
       Effect.receive (sampleMessage [7] 2), Effect.callback (sampleSpan 7)] =
        (ConsumeClaim sampleDeserialize countingIntern 0 earlier).1.2 ++
        [Effect.receive (sampleMessage [7] 2),
         Effect.callback (decodeKafkaMessage sampleDeserialize countingIntern
           (ConsumeClaim sampleDeserialize countingIntern 0 earlier).2
           (sampleMessage [7] 2)).1.1] ∧
      [] = (ConsumeClaim sampleDeserialize countingIntern
        (decodeKafkaMessage sampleDeserialize countingIntern
          (ConsumeClaim sampleDeserialize countingIntern 0 earlier).2
          (sampleMessage [7] 2)).2 later).1.2 ∧
      (([] : List Effect) = [] ∨ ∃ next q1, [] = Effect.receive next :: q1) :=
  ⟨by decide,
   ConsumeClaim_ack_after_callback sampleDeserialize countingIntern 0
     [sampleMessage [9] 0, sampleMessage [] 1, sampleMessage [7] 2] _ [] (sampleMessage [7] 2) ""
     (by decide)⟩

theorem consumeLoop_append {σ : Type} (deserialize : Bytes → Except GoError AvroSpan)
    (intern : σ → String → String × σ) (earlier later : List ConsumerMessage) :
    ∀ st : σ, consumeLoop deserialize intern st (earlier ++ later) =
      ((consumeLoop deserialize intern st earlier).1 ++
         (consumeLoop deserialize intern
           (consumeLoop deserialize intern st earlier).2 later).1,
       (consumeLoop deserialize intern
         (consumeLoop deserialize intern st earlier).2 later).2) := by
  induction earlier with
  | nil => intro st; simp [consumeLoop]
  | cons m rest ih =>
    intro st
    cases h : deserialize m.Value with
    | error c =>
      rw [List.cons_append, consumeLoop_cons_error _ _ _ _ _ c h,
        consumeLoop_cons_error _ _ _ _ _ c h, ih]
      rfl
    | ok w =>
      rw [List.cons_append, (consumeLoop_cons_ok deserialize intern st m _ w h).2,
        (consumeLoop_cons_ok deserialize intern st m rest w h).2, ih]
      rfl

/-- C8: for every finite sequence of messages of a claim, whichever of them
fail to decode, `ConsumeClaim` returns nil and has received every message of
the sequence, in order, up to the last one; and wherever a message `m` stands
in the sequence, whatever happened to the messages before it, the trace is
the processing of the earlier messages, then the processing of `m` by its own
decode outcome (a warning line and nothing else when the decode fails with
cause `c`; the callback on the decoded span and the acknowledgment when it
succeeds), then the processing of all the later messages. -/
theorem ConsumeClaim_returns_nil {σ : Type}
    (deserialize : Bytes → Except GoError AvroSpan) (intern : σ → String → String × σ)
    (st : σ) (messages : List ConsumerMessage) :
    (ConsumeClaim deserialize intern st messages).1.1 = none ∧
    received (ConsumeClaim deserialize intern st messages).1.2 = messages ∧
    ∀ (earlier later : List ConsumerMessage) (m : ConsumerMessage),
      messages = earlier ++ m :: later →
      (ConsumeClaim deserialize intern st messages).1.2 =
        (ConsumeClaim deserialize intern st earlier).1.2 ++
        (match deserialize m.Value with
          | .error c =>
            [Effect.receive m,
             Effect.warn (GoError.withMessage c "deserialize avro message")]
          | .ok _ =>
            [Effect.receive m,
             Effect.callback (decodeKafkaMessage deserialize intern
               (ConsumeClaim deserialize intern st earlier).2 m).1.1,
             Effect.markMessage m ""]) ++
        (ConsumeClaim deserialize intern
          (decodeKafkaMessage deserialize intern
            (ConsumeClaim deserialize intern st earlier).2 m).2 later).1.2 := by
  refine ⟨rfl, ?_, ?_⟩
  · simp only [ConsumeClaim]
    induction messages generalizing st with
    | nil => simp [consumeLoop, received]
    | cons m rest ih =>
      cases h : deserialize m.Value with
      | error c =>
        rw [consumeLoop_cons_error _ _ _ _ _ c h]
        simp [received, ih]
      | ok w =>
        rw [(consumeLoop_cons_ok deserialize intern st m rest w h).2]
        simp [received, ih]
  · intro earlier later m hsplit
    subst hsplit
    simp only [ConsumeClaim]
    rw [consumeLoop_append]
    cases h : deserialize m.Value with
    | error c =>
      have hst : (decodeKafkaMessage deserialize intern
          (consumeLoop deserialize intern st earlier).2 m).2 =
          (consumeLoop deserialize intern st earlier).2 := by
        simp [decodeKafkaMessage, h]
      rw [consumeLoop_cons_error _ _ _ _ _ c h, hst]
      simp
    | ok w =>
      rw [(consumeLoop_cons_ok deserialize intern _ m later w h).2]
      simp

/-- The isolation of C8 on three messages of which the second is malformed:
after the warning for the second, the third is received, passed to the
callback and acknowledged. -/
theorem ConsumeClaim_returns_nil_witness :
    [sampleMessage [9] 0, sampleMessage [] 1, sampleMessage [7] 2] =
      [sampleMessage [9] 0, sampleMessage [] 1] ++ sampleMessage [7] 2 :: [] ∧
    (ConsumeClaim sampleDeserialize countingIntern 0
        [sampleMessage [9] 0, sampleMessage [] 1]).1.2 =
      [Effect.receive (sampleMessage [9] 0), Effect.callback (sampleSpan 9),
       Effect.markMessage (sampleMessage [9] 0) "",
       Effect.receive (sampleMessage [] 1),
       Effect.warn (GoError.withMessage (GoError.base "EOF") "deserialize avro message")] ∧
    (ConsumeClaim sampleDeserialize countingIntern 0
        [sampleMessage [9] 0, sampleMessage [] 1, sampleMessage [7] 2]).1.2 =
      (ConsumeClaim sampleDeserialize countingIntern 0
        [sampleMessage [9] 0, sampleMessage [] 1]).1.2 ++
      (match sampleDeserialize (sampleMessage [7] 2).Value with
        | .error c =>
          [Effect.receive (sampleMessage [7] 2),
           Effect.warn (GoError.withMessage c "deserialize avro message")]
        | .ok _ =>
          [Effect.receive (sampleMessage [7] 2),
           Effect.callback (decodeKafkaMessage sampleDeserialize countingIntern
             (ConsumeClaim sampleDeserialize countingIntern 0
               [sampleMessage [9] 0, sampleMessage [] 1]).2 (sampleMessage [7] 2)).1.1,
           Effect.markMessage (sampleMessage [7] 2) ""]) ++
      (ConsumeClaim sampleDeserialize countingIntern
        (decodeKafkaMessage sampleDeserialize countingIntern
          (ConsumeClaim sampleDeserialize countingIntern 0
            [sampleMessage [9] 0, sampleMessage [] 1]).2 (sampleMessage [7] 2)).2 []).1.2 :=
  ⟨rfl, by decide,
   (ConsumeClaim_returns_nil sampleDeserialize countingIntern 0
     [sampleMessage [9] 0, sampleMessage [] 1, sampleMessage [7] 2]).2.2
     [sampleMessage [9] 0, sampleMessage [] 1] [] (sampleMessage [7] 2) rfl⟩

/-- C9: for every session, whatever its generation id and its claims, `Setup`
and `Cleanup` return nil, and none of their effects is a callback invocation or
an acknowledgment: `Setup` only writes debug lines, `Cleanup` does nothing. -/
theorem Setup_Cleanup_return_nil (session : Session) :
    (Setup session).1 = none ∧ (Cleanup session).1 = none ∧
    callbacks (Setup session).2 = [] ∧ marked (Setup session).2 = [] ∧
    (∀ e ∈ (Setup session).2,
      (∃ id, e = Effect.debugGeneration id) ∨ ∃ topic partition, e = Effect.debugClaimed topic partition) ∧
    (Cleanup session).2 = [] := by
  have hall : ∀ e ∈ (Setup session).2,
      (∃ id, e = Effect.debugGeneration id) ∨
        ∃ topic partition, e = Effect.debugClaimed topic partition := by
    intro e he
    simp only [Setup, List.mem_cons, List.mem_flatMap, List.mem_map] at he
    rcases he with he | ⟨claim, _, partition, _, he⟩
    · exact Or.inl ⟨_, he⟩
    · exact Or.inr ⟨_, _, he.symm⟩
  have hcb : ∀ l : List Effect,
      (∀ e ∈ l, (∃ id, e = Effect.debugGeneration id) ∨
        ∃ topic partition, e = Effect.debugClaimed topic partition) →
      callbacks l = [] ∧ marked l = [] := by
    intro l
    induction l with
    | nil => intro _; simp [callbacks, marked]
    | cons e rest ih =>
      intro hl
      have hr := ih (fun x hx => hl x (List.mem_cons_of_mem _ hx))
      rcases hl e (List.mem_cons_self _ _) with ⟨id, he⟩ | ⟨topic, partition, he⟩
      · subst he; simpa [callbacks, marked] using hr
      · subst he; simpa [callbacks, marked] using hr
  exact ⟨rfl, rfl, (hcb _ hall).1, (hcb _ hall).2, hall, rfl⟩

/-! ## The supervisor loop -/

theorem sessionsBegun_append (t : List LoopEvent) (e : LoopEvent) :
    sessionsBegun (t ++ [e]) = sessionsBegun t + sessionsBegun [e] := by
  induction t with
  | nil => simp [sessionsBegun]
  | cons x rest ih =>
    cases x <;> simp [sessionsBegun, ih]
    omega

theorem StopInv_Consume (topic : String) : StopInv (Consume topic) := by
  simp [StopInv, Consume]

theorem StopInv_step (s s1 : Supervisor) (a : Action) (hinv : StopInv s)
    (hstep : step s a = some s1) : StopInv s1 := by
  obtain ⟨h1, h2, h3⟩ := hinv
  have hopen : s.loop ≠ .exited → s.finishedClosed = false := by
    intro hne
    cases hf : s.finishedClosed with
    | false => rfl
    | true => exact absurd (h2 hf).1 hne
  cases a with
  | loopSelect =>
    cases hl : s.loop <;> simp only [step, hl] at hstep <;> try cases hstep
    have hf := hopen (by simp [hl])
    cases hc : s.ctxDone with
    | true =>
      rw [hc] at hstep
      simp only [if_true, Option.some.injEq] at hstep
      subst hstep
      exact ⟨fun _ => rfl, fun hx => by simp [hf] at hx, h3⟩
    | false =>
      rw [hc] at hstep
      simp only [Bool.false_eq_true, if_false, Option.some.injEq] at hstep
      subst hstep
      exact ⟨fun hx => by simp at hx, fun hx => by simp [hf] at hx, h3⟩
  | sessionHandler effect =>
    cases hl : s.loop <;> simp only [step, hl] at hstep <;> try cases hstep
    have hf := hopen (by simp [hl])
    exact ⟨fun hx => by simp [hl] at hx, fun hx => by simp [hf] at hx, h3⟩
  | sessionReturn result =>
    cases hl : s.loop <;> simp only [step, hl] at hstep <;> try cases hstep
    have hf := hopen (by simp [hl])
    cases result with
    | none =>
      simp only [Option.some.injEq] at hstep
      subst hstep
      exact ⟨fun hx => by simp at hx, fun hx => by simp [hf] at hx, h3⟩
    | some err =>
      simp only [Option.some.injEq] at hstep
      subst hstep
      exact ⟨fun hx => by simp at hx, fun hx => by simp [hf] at hx, h3⟩
  | loopClose =>
    cases hl : s.loop <;> simp only [step, hl] at hstep <;> try cases hstep
    exact ⟨fun _ => h1 (Or.inl hl), fun _ => ⟨rfl, by simp⟩, fun _ => rfl⟩
  | stopCancel =>
    simp only [step, Option.some.injEq] at hstep
    subst hstep
    exact ⟨fun _ => rfl, h2, h3⟩
  | stopReceive =>
    by_cases hc : s.finishedClosed = true ∧ 0 < s.stopWaiting
    · rw [step, if_pos hc, Option.some.injEq] at hstep
      subst hstep
      exact ⟨h1, h2, fun _ => hc.1⟩
    · rw [step, if_neg hc] at hstep
      cases hstep

theorem StopInv_run (actions : List Action) :
    ∀ (s s1 : Supervisor), StopInv s → run s actions = some s1 → StopInv s1 := by
  induction actions with
  | nil =>
    intro s s1 hinv hrun
    simp only [run, Option.some.injEq] at hrun
    exact hrun ▸ hinv
  | cons a rest ih =>
    intro s s1 hinv hrun
    simp only [run] at hrun
    cases hs : step s a with
    | none => rw [hs] at hrun; cases hrun
    | some s2 =>
      rw [hs] at hrun
      exact ih s2 s1 (StopInv_step s s2 a hinv hs) hrun

theorem step_exited (s s1 : Supervisor) (a : Action) (hl : s.loop = .exited)
    (hstep : step s a = some s1) : s1.loop = .exited ∧ s1.trace = s.trace := by
  cases a with
  | loopSelect => simp [step, hl] at hstep
  | sessionHandler effect => simp [step, hl] at hstep
  | sessionReturn result => simp [step, hl] at hstep
  | loopClose => simp [step, hl] at hstep
  | stopCancel =>
    simp only [step, Option.some.injEq] at hstep
    subst hstep
    exact ⟨hl, rfl⟩
  | stopReceive =>
    by_cases hc : s.finishedClosed = true ∧ 0 < s.stopWaiting
    · rw [step, if_pos hc, Option.some.injEq] at hstep
      subst hstep
      exact ⟨hl, rfl⟩
    · rw [step, if_neg hc] at hstep
      cases hstep

theorem run_exited (actions : List Action) :
    ∀ (s s1 : Supervisor), s.loop = .exited → run s actions = some s1 →
      s1.loop = .exited ∧ s1.trace = s.trace := by
  induction actions with
  | nil =>
    intro s s1 hl hrun
    simp only [run, Option.some.injEq] at hrun
    subst hrun
    exact ⟨hl, rfl⟩
  | cons a rest ih =>
    intro s s1 hl hrun
    simp only [run] at hrun
    cases hs : step s a with
    | none => rw [hs] at hrun; cases hrun
    | some s2 =>
      rw [hs] at hrun
      obtain ⟨h1, h2⟩ := step_exited s s2 a hl hs
      obtain ⟨h3, h4⟩ := ih s2 s1 h1 hrun
      exact ⟨h3, h4.trans h2⟩

theorem run_attempts (results : List (Option GoError)) :
    ∀ s : Supervisor, s.loop = .atSelect → s.ctxDone = false →
      ∃ s1, run s (attempts results) = some s1 ∧ s1.loop = .atSelect ∧
        s1.ctxDone = false ∧
        sessionsBegun s1.trace = sessionsBegun s.trace + results.length := by
  induction results with
  | nil => intro s hl hc; exact ⟨s, rfl, hl, hc, rfl⟩
  | cons r rest ih =>
    intro s hl hc
    cases r with
    | none =>
      obtain ⟨s1, h1, h2, h3, h4⟩ := ih
        { s with loop := .atSelect,
                 trace := s.trace ++ [LoopEvent.sessionBegin [s.topic]] } rfl hc
      refine ⟨s1, ?_, h2, h3, ?_⟩
      · simpa [attempts, run, step, hl, hc] using h1
      · rw [h4, sessionsBegun_append]
        simp [sessionsBegun]
        omega
    | some err =>
      obtain ⟨s1, h1, h2, h3, h4⟩ := ih
        { s with loop := .atSelect,
                 trace := s.trace ++ [LoopEvent.sessionBegin [s.topic]] ++
                   [LoopEvent.warnSession err] } rfl hc
      refine ⟨s1, ?_, h2, h3, ?_⟩
      · simpa [attempts, run, step, hl, hc] using h1
      · rw [h4, sessionsBegun_append, sessionsBegun_append]
        simp [sessionsBegun]
        omega

/-- C5: in every execution of the system started by `Consume`, once a call of
the stop function has returned, the context is cancelled, the goroutine is past
`close(finishedCh)` (it has left the retry loop through the cancellation
branch), `finishedCh` is closed and that close is the last event of the
goroutine; and whatever steps follow, the goroutine stays there and its trace
does not grow: no further session attempt begins and the handler, hence the
callback, is not invoked again. -/
theorem stop_returns_after_loop_finished (topic : String) (actions : List Action)
    (s : Supervisor) (hrun : run (Consume topic) actions = some s)
    (hret : 0 < s.stopReturned) :
    s.ctxDone = true ∧ s.loop = .exited ∧ s.finishedClosed = true ∧
    s.trace.getLast? = some LoopEvent.closeFinished ∧
    ∀ (more : List Action) (s1 : Supervisor), run s more = some s1 →
      s1.loop = .exited ∧ s1.trace = s.trace := by
  obtain ⟨h1, h2, h3⟩ := StopInv_run actions _ s (StopInv_Consume topic) hrun
  have hf := h3 hret
  obtain ⟨hl, hc⟩ := h2 hf
  exact ⟨h1 (Or.inr hl), hl, hf, hc, fun more s1 hm => run_exited more s s1 hl hm⟩

/-- The guarantee of C5 on a run in which the stop function is called during
a session attempt and returns after the goroutine has closed `finishedCh`. -/
theorem stop_returns_after_loop_finished_witness :
    run (Consume "spans") sampleStopRun =
      some { topic := "spans", loop := .exited, ctxDone := true, finishedClosed := true,
             stopWaiting := 0, stopReturned := 1,
             trace := [LoopEvent.sessionBegin ["spans"],
                       LoopEvent.handler (Effect.callback (sampleSpan 9)),
                       LoopEvent.warnSession (GoError.base "context canceled"),
                       LoopEvent.closeFinished] } ∧
    [LoopEvent.sessionBegin ["spans"],
     LoopEvent.handler (Effect.callback (sampleSpan 9)),
     LoopEvent.warnSession (GoError.base "context canceled"),
     LoopEvent.closeFinished].getLast? = some LoopEvent.closeFinished :=
  ⟨by decide,
   (stop_returns_after_loop_finished "spans" sampleStopRun
     { topic := "spans", loop := .exited, ctxDone := true, finishedClosed := true,
       stopWaiting := 0, stopReturned := 1,
       trace := [LoopEvent.sessionBegin ["spans"],
                 LoopEvent.handler (Effect.callback (sampleSpan 9)),
                 LoopEvent.warnSession (GoError.base "context canceled"),
                 LoopEvent.closeFinished] }
     (by decide) (by decide)).2.2.2.1⟩

/-- C7: (1) whatever result a session attempt returns, error or nil, the
goroutine goes back to the `select`, and the only trace of an error is a
warning line: the cancellation flag, `finishedCh` and the stop calls are left
as they were; (2) at the `select` with the context not cancelled, the step of
the goroutine begins a fresh session attempt on the topic, with no step in
between; (3) in every execution started by `Consume`, the goroutine is in the
cancellation branch or past it only if the context has been cancelled, and the
only steps that take it there are the `select` with the context cancelled and
the close that follows; (4) for every list of results, of any length, the
execution without cancellation in which the successive attempts return these
results makes one attempt per result and is again at the `select`. -/
theorem Consume_retries_after_every_attempt (topic : String) :
    (∀ (s : Supervisor) (result : Option GoError), s.loop = .inSession →
      ∃ s1, step s (.sessionReturn result) = some s1 ∧ s1.loop = .atSelect ∧
        s1.ctxDone = s.ctxDone ∧ s1.finishedClosed = s.finishedClosed ∧
        s1.stopWaiting = s.stopWaiting ∧ s1.stopReturned = s.stopReturned ∧
        s1.trace = s.trace ++ (match result with
          | some err => [LoopEvent.warnSession err]
          | none => [])) ∧
    (∀ s : Supervisor, s.loop = .atSelect → s.ctxDone = false →
      ∃ s1, step s .loopSelect = some s1 ∧ s1.loop = .inSession ∧
        s1.trace = s.trace ++ [LoopEvent.sessionBegin [s.topic]]) ∧
    (∀ (actions : List Action) (s : Supervisor), run (Consume topic) actions = some s →
      (s.loop = .cancelObserved ∨ s.loop = .exited) → s.ctxDone = true) ∧
    (∀ (s s1 : Supervisor) (a : Action), step s a = some s1 → s1.loop ≠ s.loop →
      (s1.loop = .cancelObserved ∨ s1.loop = .exited) →
      (a = .loopSelect ∧ s.loop = .atSelect ∧ s.ctxDone = true ∧ s1.loop = .cancelObserved) ∨
      (a = .loopClose ∧ s.loop = .cancelObserved ∧ s1.loop = .exited)) ∧
    (∀ results : List (Option GoError),
      ∃ s, run (Consume topic) (attempts results) = some s ∧ s.loop = .atSelect ∧
        s.ctxDone = false ∧ sessionsBegun s.trace = results.length) := by
  refine ⟨?_, ?_, ?_, ?_, ?_⟩
  · intro s result hl
    cases result with
    | none =>
      refine ⟨{ s with loop := .atSelect }, ?_, rfl, rfl, rfl, rfl, rfl, by simp⟩
      simp only [step, hl]
    | some err =>
      refine ⟨{ s with loop := .atSelect, trace := s.trace ++ [LoopEvent.warnSession err] },
        ?_, rfl, rfl, rfl, rfl, rfl, rfl⟩
      simp only [step, hl]
  · intro s hl hc
    refine ⟨{ s with loop := .inSession,
                     trace := s.trace ++ [LoopEvent.sessionBegin [s.topic]] }, ?_, rfl, rfl⟩
    rw [step, hl]
    simp only [hc, Bool.false_eq_true, if_false]
  · intro actions s hrun
    exact (StopInv_run actions _ s (StopInv_Consume topic) hrun).1
  · intro s s1 a hstep hne hor
    cases a with
    | loopSelect =>
      cases hl : s.loop <;> simp only [step, hl] at hstep <;> try cases hstep
      cases hc : s.ctxDone with
      | true =>
        rw [hc] at hstep
        simp only [if_true, Option.some.injEq] at hstep
        subst hstep
        exact Or.inl ⟨rfl, rfl, rfl, rfl⟩
      | false =>
        rw [hc] at hstep
        simp only [Bool.false_eq_true, if_false, Option.some.injEq] at hstep
        subst hstep
        simp at hor
    | sessionHandler effect =>
      cases hl : s.loop <;> simp only [step, hl] at hstep <;> try cases hstep
      simp [hl] at hne
    | sessionReturn result =>
      cases hl : s.loop <;> simp only [step, hl] at hstep <;> try cases hstep
      cases result with
      | none =>
        simp only [Option.some.injEq] at hstep
        subst hstep
        simp at hor
      | some err =>
        simp only [Option.some.injEq] at hstep
        subst hstep
        simp at hor
    | loopClose =>
      cases hl : s.loop <;> simp only [step, hl] at hstep <;> try cases hstep
      exact Or.inr ⟨rfl, rfl, rfl⟩
    | stopCancel =>
      simp only [step, Option.some.injEq] at hstep
      subst hstep
      simp at hne
    | stopReceive =>
      by_cases hc : s.finishedClosed = true ∧ 0 < s.stopWaiting
      · rw [step, if_pos hc, Option.some.injEq] at hstep
        subst hstep
        simp at hne
      · rw [step, if_neg hc] at hstep
        cases hstep
  · intro results
    obtain ⟨s, h1, h2, h3, h4⟩ := run_attempts results (Consume topic) rfl rfl
    exact ⟨s, h1, h2, h3, by simpa [Consume, sessionsBegun] using h4⟩

/-- The retry policy of C7 on three attempts of which two fail: the loop has
begun three attempts and is at the `select` again. -/
theorem Consume_retries_after_every_attempt_witness :
    ∃ s, run (Consume "spans")
        (attempts [some (GoError.base "coordinator unreachable"), none,
          some (GoError.base "rebalance in progress")]) = some s ∧
      s.loop = .atSelect ∧ s.ctxDone = false ∧ sessionsBegun s.trace = 3 :=
  (Consume_retries_after_every_attempt "spans").2.2.2.2
    [some (GoError.base "coordinator unreachable"), none,
     some (GoError.base "rebalance in progress")]

end Balance
